import Mathlib

/-!
Shallow embedding of the cronzee health-monitor core (monitor.go,
database.go, server.go) and proofs of the specified properties.

Machine integers (Go `int`, `int64`, `time.Duration`, `time.Time`
instants) are modelled as `Int`; Go strings as `String`.  Each Go
function named below is translated directly from its source.
-/

namespace Cronzee

/-- `HealthStatus` from monitor.go: healthy / unhealthy / unknown. -/
inductive HealthStatus where
  | healthy
  | unhealthy
  | unknown
deriving DecidableEq

/-- The status strings used by the Go constants StatusHealthy etc. -/
def HealthStatus.str : HealthStatus → String
  | .healthy => "healthy"
  | .unhealthy => "unhealthy"
  | .unknown => "unknown"

/-- `Endpoint` from the config component (fields used by the monitor). -/
structure Endpoint where
  name : String
  url : String
  httpMethod : String
  timeout : Int
  expectedStatus : Int
  headers : List (String × String)
  failureThreshold : Int
  successThreshold : Int
deriving DecidableEq

/-- `EndpointState` from monitor.go (the lock is concurrency plumbing and
has no data content). -/
structure EndpointState where
  endpoint : Endpoint
  status : HealthStatus
  lastCheck : Int
  lastStatusChange : Int
  consecutiveFailures : Int
  consecutiveSuccesses : Int
  responseTime : Int
  lastError : String
  enabled : Bool
  alertsSuppressed : Bool
  id : String
  checkInterval : Int
  nextCheck : Int
deriving DecidableEq

/-- The two alert calls the monitor can make on the Alerter
(SendFailureAlert / SendRecoveryAlert in alerter.go). -/
inductive AlertKind where
  | failure
  | recovery
deriving DecidableEq

/-- Outcome of one health check as classified by `checkEndpoint`. -/
inductive CheckOutcome where
  | success (responseTime : Int)
  | failure (errorMsg : String) (responseTime : Int)
deriving DecidableEq

/-- `HealthCheckRecord` from database.go. -/
structure HealthCheckRecord where
  endpointID : String
  timestamp : Int
  status : String
  responseTime : Int
  statusCode : Int
  error : String
deriving DecidableEq

/-- `handleCheckSuccess` from monitor.go: reset failures, increment
successes, clear the error, promote to healthy once the success
threshold is met, and fire a recovery alert on an
unhealthy-to-healthy transition unless alerts are suppressed.
All `time.Now()` calls in one invocation are modelled by `now`. -/
def handleCheckSuccess (st : EndpointState) (responseTime now : Int) :
    EndpointState × Option AlertKind :=
  let s1 : EndpointState :=
    { st with lastCheck := now, nextCheck := now + st.checkInterval,
              responseTime := responseTime, consecutiveFailures := 0,
              consecutiveSuccesses := st.consecutiveSuccesses + 1,
              lastError := "" }
  let s2 : EndpointState :=
    if s1.endpoint.successThreshold ≤ s1.consecutiveSuccesses then
      { s1 with status := HealthStatus.healthy }
    else s1
  if st.status = HealthStatus.unhealthy ∧ s2.status = HealthStatus.healthy then
    ({ s2 with lastStatusChange := now },
     if s2.alertsSuppressed then none else some AlertKind.recovery)
  else (s2, none)

/-- `handleCheckFailure` from monitor.go: reset successes, increment
failures, record the error, demote to unhealthy once the failure
threshold is met, and fire a failure alert on a transition into
unhealthy unless alerts are suppressed. -/
def handleCheckFailure (st : EndpointState) (errorMsg : String)
    (responseTime now : Int) : EndpointState × Option AlertKind :=
  let s1 : EndpointState :=
    { st with lastCheck := now, nextCheck := now + st.checkInterval,
              responseTime := responseTime, consecutiveSuccesses := 0,
              consecutiveFailures := st.consecutiveFailures + 1,
              lastError := errorMsg }
  let s2 : EndpointState :=
    if s1.endpoint.failureThreshold ≤ s1.consecutiveFailures then
      { s1 with status := HealthStatus.unhealthy }
    else s1
  if ¬ st.status = HealthStatus.unhealthy ∧ s2.status = HealthStatus.unhealthy then
    ({ s2 with lastStatusChange := now },
     if s2.alertsSuppressed then none else some AlertKind.failure)
  else (s2, none)

/-- One outcome-processing step of the state machine. -/
def processOutcome (st : EndpointState) (o : CheckOutcome) (now : Int) :
    EndpointState × Option AlertKind :=
  match o with
  | CheckOutcome.success rt => handleCheckSuccess st rt now
  | CheckOutcome.failure msg rt => handleCheckFailure st msg rt now

/-- `saveHealthRecord` from monitor.go: the record literal built from the
post-step state.  The Go struct literal omits the `StatusCode` field,
so it holds the Go zero value 0. -/
def saveHealthRecord (st : EndpointState) (errorMsg : String) :
    HealthCheckRecord :=
  { endpointID := st.id, timestamp := st.lastCheck,
    status := st.status.str, responseTime := st.responseTime,
    statusCode := 0, error := errorMsg }

/-- The error message passed to `saveHealthRecord` by the two handlers:
`""` on success, the failure message on failure. -/
def outcomeErrorMsg : CheckOutcome → String
  | CheckOutcome.success _ => ""
  | CheckOutcome.failure msg _ => msg

/-- The history record persisted by one outcome-processing step. -/
def stepRecord (st : EndpointState) (o : CheckOutcome) (now : Int) :
    HealthCheckRecord :=
  saveHealthRecord (processOutcome st o now).1 (outcomeErrorMsg o)

/-- The possible results of the single HTTP request issued by
`checkEndpoint` (net/http is the external collaborator): request
construction may fail, the transport may fail or time out, or a
response with some status code arrives after the elapsed time. -/
inductive HttpResult where
  | buildErr (msg : String)
  | transportErr (msg : String) (elapsed : Int)
  | response (statusCode : Int) (elapsed : Int)
deriving DecidableEq

/-- `checkEndpoint` from monitor.go, restricted to its outcome
classification (the part after the HTTP call is decided). -/
def checkEndpoint (ep : Endpoint) (r : HttpResult) : CheckOutcome :=
  match r with
  | HttpResult.buildErr msg =>
      CheckOutcome.failure ("failed to create request: " ++ msg) 0
  | HttpResult.transportErr msg t =>
      CheckOutcome.failure ("request failed: " ++ msg) t
  | HttpResult.response code t =>
      if ¬ code = ep.expectedStatus then
        CheckOutcome.failure
          ("unexpected status code: got " ++ toString code ++
           ", expected " ++ toString ep.expectedStatus) t
      else CheckOutcome.success t

/-! ### ID generation (database.go, `generateIDWithURL`) -/

/-- The rune test of the first loop in `generateIDWithURL`: runes kept
verbatim. -/
def goIDKeep (c : Char) : Bool :=
  decide (('a' ≤ c ∧ c ≤ 'z') ∨ ('A' ≤ c ∧ c ≤ 'Z') ∨ ('0' ≤ c ∧ c ≤ '9'))

/-- The rune test of the first loop in `generateIDWithURL`: runes mapped
to a dash. -/
def goIDDash (c : Char) : Bool :=
  decide (c = ' ' ∨ c = '-' ∨ c = '_' ∨ c = '/' ∨ c = ':' ∨ c = '.')

/-- First loop of `generateIDWithURL`: keep alphanumerics, map
space, dash, underscore, slash, colon and dot to a dash, drop the rest. -/
def sanitizeRune : List Char → List Char
  | [] => []
  | c :: rest =>
    if goIDKeep c then c :: sanitizeRune rest
    else if goIDDash c then '-' :: sanitizeRune rest
    else sanitizeRune rest

/-- Second loop of `generateIDWithURL`: collapse runs of dashes, with
the `prevDash` flag threaded exactly as in the Go code. -/
def squeezeDashes : List Char → Bool → List Char
  | [], _ => []
  | c :: rest, prevDash =>
    if c = '-' then
      if prevDash then squeezeDashes rest true
      else '-' :: squeezeDashes rest true
    else c :: squeezeDashes rest false

/-- Third loop of `generateIDWithURL`: strip trailing dashes. -/
def trimTrailingDashes (l : List Char) : List Char :=
  (l.reverse.dropWhile (fun c => c = '-')).reverse

/-- `generateIDWithURL` from database.go, on `name + "-" + url`. -/
def generateIDWithURL (name url : String) : String :=
  String.mk (trimTrailingDashes
    (squeezeDashes (sanitizeRune (name.data ++ '-' :: url.data)) false))

/-- No two consecutive dashes occur in the character list. -/
def noDoubledDash : List Char → Bool
  | [] => true
  | [_] => true
  | a :: b :: rest => !(a == '-' && b == '-') && noDoubledDash (b :: rest)

/-! ### Persistence and registry (database.go, server.go) -/

/-- `DataRetentionDays` from database.go. -/
def DataRetentionDays : Int := 3

/-- Nanoseconds per second (`time.Second`). -/
def nanosPerSecond : Int := 1000000000

/-- Nanoseconds per day, the unit of `AddDate(0, 0, -n)` on the linear
instant timeline. -/
def nanosPerDay : Int := 86400 * nanosPerSecond

/-- `CleanupOldData` from database.go, acting on the history bucket
contents: the cutoff is `now` minus the retention period, records whose
timestamp is strictly before the cutoff are deleted, the rest are kept
(records whose stored bytes fail to decode are also kept; all records
here are well formed). -/
def CleanupOldData (now : Int) (history : List HealthCheckRecord) :
    List HealthCheckRecord :=
  history.filter
    (fun r => !decide (r.timestamp < now - DataRetentionDays * nanosPerDay))

/-- `StoredEndpoint` from database.go. -/
structure StoredEndpoint where
  id : String
  name : String
  url : String
  httpMethod : String
  timeout : Int
  checkInterval : Int
  expectedStatus : Int
  headers : List (String × String)
  failureThreshold : Int
  successThreshold : Int
  enabled : Bool
  alertsSuppressed : Bool
  createdAt : Int
  updatedAt : Int
deriving DecidableEq

/-- `EndpointRequest` from server.go, with the duration strings already
parsed: `none` stands for the empty string (use the default).  A
malformed duration string is rejected with a BadRequest before any
write and is not representable here. -/
structure EndpointRequest where
  name : String
  url : String
  httpMethod : String
  timeout : Option Int
  checkInterval : Option Int
  expectedStatus : Int
  headers : List (String × String)
  failureThreshold : Int
  successThreshold : Int

/-- The two error classes of `handleAddEndpoint` that concern the add
contract: missing name/URL (HTTP 400) and duplicate name or URL
(HTTP 409 Conflict). -/
inductive AddError where
  | validationError
  | conflict
deriving DecidableEq

/-- The default-filling block of `SaveEndpoint` in database.go. -/
def applyDefaults (now : Int) (ep : StoredEndpoint) : StoredEndpoint :=
  { ep with
    createdAt := if ep.createdAt = 0 then now else ep.createdAt
    updatedAt := now
    httpMethod := if ep.httpMethod = "" then "GET" else ep.httpMethod
    timeout := if ep.timeout = 0 then 10 * nanosPerSecond else ep.timeout
    expectedStatus := if ep.expectedStatus = 0 then 200 else ep.expectedStatus
    failureThreshold :=
      if ep.failureThreshold = 0 then 3 else ep.failureThreshold
    successThreshold :=
      if ep.successThreshold = 0 then 2 else ep.successThreshold
    checkInterval :=
      if ep.checkInterval = 0 then 30 * nanosPerSecond else ep.checkInterval }

/-- A `Put` on the endpoints bucket: replace the entry with the same ID
or append a new one. -/
def putByID (db : List StoredEndpoint) (ep : StoredEndpoint) :
    List StoredEndpoint :=
  if db.any (fun e => e.id == ep.id) then
    db.map (fun e => if e.id == ep.id then ep else e)
  else db ++ [ep]

/-- `SaveEndpoint` from database.go: fill defaults, then put by ID. -/
def SaveEndpoint (now : Int) (db : List StoredEndpoint)
    (ep : StoredEndpoint) : List StoredEndpoint :=
  putByID db (applyDefaults now ep)

/-- `handleAddEndpoint` from server.go, acting on the endpoints bucket:
validate non-empty name and URL, reject a duplicate name or URL with
Conflict before anything is written, otherwise build the stored
endpoint (ID from `generateIDWithURL`, enabled, alerts not suppressed)
and persist it via `SaveEndpoint` (reached through
`Monitor.AddEndpoint`). -/
def handleAddEndpoint (now : Int) (db : List StoredEndpoint)
    (req : EndpointRequest) : List StoredEndpoint × Option AddError :=
  if req.name = "" ∨ req.url = "" then (db, some AddError.validationError)
  else if db.any (fun ep => ep.name == req.name || ep.url == req.url) then
    (db, some AddError.conflict)
  else
    (SaveEndpoint now db
      { id := generateIDWithURL req.name req.url
        name := req.name
        url := req.url
        httpMethod := req.httpMethod
        timeout := req.timeout.getD (10 * nanosPerSecond)
        checkInterval := req.checkInterval.getD (30 * nanosPerSecond)
        expectedStatus := req.expectedStatus
        headers := req.headers
        failureThreshold := req.failureThreshold
        successThreshold := req.successThreshold
        enabled := true
        alertsSuppressed := false
        createdAt := 0
        updatedAt := 0 }, none)

/-- `DeleteEndpoint` from database.go: a bolt `Bucket.Delete`, which
removes the key if present and reports success either way (it only
fails on a read-only transaction, never for an absent key). -/
def DeleteEndpoint (db : List StoredEndpoint) (id : String) :
    List StoredEndpoint :=
  db.filter (fun ep => !(ep.id == id))

/-- `RemoveEndpoint` from monitor.go: delete from the database, then
delete the runtime state from the in-memory map (`delete` on a Go map
is a no-op for an absent key); the `Bool` is the success of the whole
operation (`nil` error). -/
def RemoveEndpoint (db : List StoredEndpoint)
    (states : List (String × EndpointState)) (id : String) :
    List StoredEndpoint × List (String × EndpointState) × Bool :=
  (DeleteEndpoint db id, states.filter (fun p => !(p.1 == id)), true)

/-! ### History keys and the history query (database.go)

History records are stored under the string key
`fmt.Sprintf("%s:%d", endpointID, timestamp.UnixNano())` and the bolt
cursor iterates keys in ascending bytewise order (for UTF-8 text,
bytewise order coincides with codepoint order, modelled below on
`List Char`). -/

/-- The decimal digit characters, as produced by Go's `%d` verb. -/
def digitChar10 (d : Nat) : Char :=
  match d with
  | 0 => '0'
  | 1 => '1'
  | 2 => '2'
  | 3 => '3'
  | 4 => '4'
  | 5 => '5'
  | 6 => '6'
  | 7 => '7'
  | 8 => '8'
  | _ => '9'

/-- Decimal rendering of a natural number, fuelled so that it is
structurally recursive (the fuel `n + 1` always suffices; see
`toDec_unfold` for the fuel-free unfolding). -/
def toDecGo : Nat → Nat → List Char
  | 0, _ => []
  | fuel + 1, n =>
    if n < 10 then [digitChar10 n]
    else toDecGo fuel (n / 10) ++ [digitChar10 (n % 10)]

/-- Decimal rendering of a natural number (Go `%d` on a nonnegative
value). -/
def toDec (n : Nat) : List Char := toDecGo (n + 1) n

/-- Go `%d` on an `int64`: decimal digits with a leading minus sign for
negative values. -/
def goIntDec (i : Int) : List Char :=
  if i < 0 then '-' :: toDec (-i).toNat else toDec i.toNat

/-- The history-bucket key `endpointID + ":" + decimal timestamp`. -/
def histKey (endpointID : String) (ts : Int) : List Char :=
  endpointID.data ++ ':' :: goIntDec ts

/-- The key under which a record is stored (`SaveHealthCheckRecord`). -/
def recKey (r : HealthCheckRecord) : List Char :=
  histKey r.endpointID r.timestamp

/-- Strict bytewise lexicographic order on keys, the bolt cursor
order. -/
def lexLtB : List Char → List Char → Bool
  | [], [] => false
  | [], _ :: _ => true
  | _ :: _, [] => false
  | a :: as, b :: bs =>
    if a < b then true else if b < a then false else lexLtB as bs

/-- The bolt invariant on the history bucket: the entries are listed in
strictly ascending key order. -/
def SortedBucket (bucket : List HealthCheckRecord) : Prop :=
  List.Pairwise (fun r s => lexLtB (recKey r) (recKey s) = true) bucket

/-- `GetHealthHistory` from database.go: the cursor seeks to the first
key not below `endpointID + ":"` (`dropWhile` of the smaller keys),
iterates while the key keeps that prefix (`takeWhile`), then the
collected records are reversed and, when `limit > 0`, truncated to
`limit`. -/
def GetHealthHistory (bucket : List HealthCheckRecord)
    (endpointID : String) (limit : Int) : List HealthCheckRecord :=
  let p := endpointID.data ++ [':']
  let matched :=
    (bucket.dropWhile (fun r => lexLtB (recKey r) p)).takeWhile
      (fun r => p.isPrefixOf (recKey r))
  let records := matched.reverse
  if 0 < limit then records.take limit.toNat else records

/-! ### Concrete sample data used by the witnesses -/

/-- A record of endpoint "e" with the given timestamp (for the history
query claims). -/
def recB (t : Int) : HealthCheckRecord :=
  { endpointID := "e", timestamp := t, status := "healthy",
    responseTime := 2, statusCode := 0, error := "" }

/-- A concrete endpoint used to instantiate witnesses. -/
def sampleEndpoint : Endpoint :=
  { name := "API", url := "https://x", httpMethod := "GET", timeout := 10,
    expectedStatus := 200, headers := [], failureThreshold := 3,
    successThreshold := 2 }

/-- A concrete runtime state used to instantiate witnesses. -/
def sampleState : EndpointState :=
  { endpoint := sampleEndpoint, status := HealthStatus.unknown,
    lastCheck := 0, lastStatusChange := 0, consecutiveFailures := 0,
    consecutiveSuccesses := 0, responseTime := 0, lastError := "",
    enabled := true, alertsSuppressed := false, id := "API-https-x",
    checkInterval := 30, nextCheck := 0 }

/-- A state whose endpoint trips to unhealthy after one failure. -/
def quickFailState : EndpointState :=
  { sampleState with endpoint := { sampleEndpoint with failureThreshold := 1 } }

/-- An unhealthy state whose endpoint recovers after one success. -/
def quickRecoverState : EndpointState :=
  { sampleState with
    status := HealthStatus.unhealthy
    endpoint := { sampleEndpoint with successThreshold := 1 } }

/-- A concrete stored endpoint used to instantiate witnesses. -/
def sampleStored : StoredEndpoint :=
  { id := "API-https-x", name := "API", url := "https://x",
    httpMethod := "GET", timeout := 10 * nanosPerSecond,
    checkInterval := 30 * nanosPerSecond, expectedStatus := 200,
    headers := [], failureThreshold := 3, successThreshold := 2,
    enabled := true, alertsSuppressed := false, createdAt := 1,
    updatedAt := 1 }

/-- A concrete history record with the given timestamp. -/
def recAt (t : Int) : HealthCheckRecord :=
  { endpointID := "e", timestamp := t, status := "healthy",
    responseTime := 1, statusCode := 0, error := "" }

/-- Concrete add request: name "API", url "https://x". -/
def apiReqX : EndpointRequest :=
  { name := "API", url := "https://x", httpMethod := "GET",
    timeout := none, checkInterval := none, expectedStatus := 200,
    headers := [], failureThreshold := 3, successThreshold := 2 }

/-- Concrete add request: name "API", url "https://y". -/
def apiReqY : EndpointRequest := { apiReqX with url := "https://y" }

end Cronzee

namespace Cronzee

/-- C1: in one failure step the status is set to unhealthy exactly when
the incremented failure counter reaches the failure threshold, and is
left unchanged otherwise; dually for a success step and the success
threshold.  In particular the status can change only when the
corresponding threshold is reached. -/
theorem status_threshold_iff (st : EndpointState) (msg : String)
    (rt now : Int) :
    ((st.endpoint.failureThreshold ≤ st.consecutiveFailures + 1 →
        (handleCheckFailure st msg rt now).1.status = HealthStatus.unhealthy) ∧
     (st.consecutiveFailures + 1 < st.endpoint.failureThreshold →
        (handleCheckFailure st msg rt now).1.status = st.status) ∧
     ((handleCheckFailure st msg rt now).1.status ≠ st.status →
        (handleCheckFailure st msg rt now).1.status = HealthStatus.unhealthy ∧
        st.endpoint.failureThreshold ≤ st.consecutiveFailures + 1)) ∧
    ((st.endpoint.successThreshold ≤ st.consecutiveSuccesses + 1 →
        (handleCheckSuccess st rt now).1.status = HealthStatus.healthy) ∧
     (st.consecutiveSuccesses + 1 < st.endpoint.successThreshold →
        (handleCheckSuccess st rt now).1.status = st.status) ∧
     ((handleCheckSuccess st rt now).1.status ≠ st.status →
        (handleCheckSuccess st rt now).1.status = HealthStatus.healthy ∧
        st.endpoint.successThreshold ≤ st.consecutiveSuccesses + 1)) := by
  unfold handleCheckFailure handleCheckSuccess
  dsimp only
  constructor
  · split_ifs <;> simp_all
  · split_ifs <;> simp_all

/-- Witness for C1 at concrete states: one failure trips a
threshold-1 endpoint to unhealthy, and a below-threshold failure on the
default endpoint leaves the status unchanged. -/
theorem status_threshold_iff_witness :
    (handleCheckFailure quickFailState "down" 5 100).1.status =
      HealthStatus.unhealthy ∧
    (handleCheckFailure sampleState "down" 5 100).1.status =
      sampleState.status :=
  ⟨(status_threshold_iff quickFailState "down" 5 100).1.1 (by decide),
   (status_threshold_iff sampleState "down" 5 100).1.2.1 (by decide)⟩

/-- C2: one success step zeroes the failure counter and increments the
success counter by one; one failure step zeroes the success counter and
increments the failure counter by one.  Exactly one counter increments
per observed outcome. -/
theorem counters_reset_and_increment (st : EndpointState)
    (msg : String) (rt now : Int) :
    ((handleCheckSuccess st rt now).1.consecutiveFailures = 0 ∧
     (handleCheckSuccess st rt now).1.consecutiveSuccesses =
       st.consecutiveSuccesses + 1) ∧
    ((handleCheckFailure st msg rt now).1.consecutiveSuccesses = 0 ∧
     (handleCheckFailure st msg rt now).1.consecutiveFailures =
       st.consecutiveFailures + 1) := by
  unfold handleCheckSuccess handleCheckFailure
  dsimp only
  constructor
  · split <;> split <;> simp
  · split <;> split <;> simp

/-- C3: an alert is returned by an outcome-processing step only when the
status actually changed in that step, and then it is a recovery alert
(new status healthy, previous unhealthy) or a failure alert (new status
unhealthy, previous not unhealthy).  The step returns at most one
alert by construction (`Option AlertKind`). -/
theorem alert_only_on_transition (st : EndpointState) (o : CheckOutcome)
    (now : Int) (k : AlertKind)
    (h : (processOutcome st o now).2 = some k) :
    (processOutcome st o now).1.status ≠ st.status ∧
    ((k = AlertKind.recovery ∧
      (processOutcome st o now).1.status = HealthStatus.healthy ∧
      st.status = HealthStatus.unhealthy) ∨
     (k = AlertKind.failure ∧
      (processOutcome st o now).1.status = HealthStatus.unhealthy ∧
      st.status ≠ HealthStatus.unhealthy)) := by
  cases o <;>
    unfold processOutcome handleCheckSuccess handleCheckFailure at h ⊢ <;>
    dsimp only at h ⊢ <;>
    split_ifs at h ⊢ <;> simp_all <;> aesop

/-- Witness for C3: a failure on a threshold-1 unknown endpoint fires
the failure alert, and the status indeed changed in that step. -/
theorem alert_only_on_transition_witness :
    (processOutcome quickFailState (CheckOutcome.failure "down" 0) 7).2 =
      some AlertKind.failure ∧
    (processOutcome quickFailState (CheckOutcome.failure "down" 0) 7).1.status ≠
      quickFailState.status :=
  ⟨by decide,
   (alert_only_on_transition quickFailState (CheckOutcome.failure "down" 0) 7
      AlertKind.failure (by decide)).1⟩

/-- C10: every history record persisted by an outcome-processing step of
the monitor has status code 0 — the Go struct literal in
`saveHealthRecord` never populates `StatusCode`. -/
theorem persisted_statusCode_zero (st : EndpointState) (o : CheckOutcome)
    (now : Int) :
    (stepRecord st o now).statusCode = 0 := rfl

/-- C7: one check invocation is classified in exactly one of four ways,
determined by the form of the HTTP result and the expected status. -/
theorem checkEndpoint_classification (ep : Endpoint) (r : HttpResult) :
    (∃ msg, r = HttpResult.buildErr msg ∧
       checkEndpoint ep r =
         CheckOutcome.failure ("failed to create request: " ++ msg) 0) ∨
    (∃ msg t, r = HttpResult.transportErr msg t ∧
       checkEndpoint ep r =
         CheckOutcome.failure ("request failed: " ++ msg) t) ∨
    (∃ code t, r = HttpResult.response code t ∧ ¬ code = ep.expectedStatus ∧
       checkEndpoint ep r =
         CheckOutcome.failure
           ("unexpected status code: got " ++ toString code ++
            ", expected " ++ toString ep.expectedStatus) t) ∨
    (∃ code t, r = HttpResult.response code t ∧ code = ep.expectedStatus ∧
       checkEndpoint ep r = CheckOutcome.success t) := by
  cases r with
  | buildErr msg => exact Or.inl ⟨msg, rfl, rfl⟩
  | transportErr msg t => exact Or.inr (Or.inl ⟨msg, t, rfl, rfl⟩)
  | response code t =>
    by_cases hc : code = ep.expectedStatus
    · exact Or.inr (Or.inr (Or.inr
        ⟨code, t, rfl, hc, by simp [checkEndpoint, hc]⟩))
    · exact Or.inr (Or.inr (Or.inl
        ⟨code, t, rfl, hc, by simp [checkEndpoint, hc]⟩))

/-- Every character of `sanitizeRune l` is a kept alphanumeric or a dash. -/
theorem mem_sanitizeRune {c : Char} :
    ∀ {l : List Char}, c ∈ sanitizeRune l → goIDKeep c = true ∨ c = '-' := by
  intro l
  induction l with
  | nil => intro h; simp [sanitizeRune] at h
  | cons a rest ih =>
    intro h
    rw [sanitizeRune] at h
    split_ifs at h with h1 h2
    · rcases List.mem_cons.mp h with rfl | hm
      · exact Or.inl h1
      · exact ih hm
    · rcases List.mem_cons.mp h with rfl | hm
      · exact Or.inr rfl
      · exact ih hm
    · exact ih h

/-- `squeezeDashes` returns a sublist of its input. -/
theorem squeezeDashes_sublist :
    ∀ (l : List Char) (b : Bool), List.Sublist (squeezeDashes l b) l := by
  intro l
  induction l with
  | nil => intro b; simp [squeezeDashes]
  | cons a rest ih =>
    intro b
    rw [squeezeDashes]
    split_ifs with h1 h2
    · exact List.Sublist.cons a (ih true)
    · rw [h1]
      exact List.Sublist.cons₂ '-' (ih true)
    · exact List.Sublist.cons₂ a (ih false)

/-- `squeezeDashes` only rearranges characters of its input. -/
theorem mem_squeezeDashes {c : Char} {l : List Char} {b : Bool}
    (h : c ∈ squeezeDashes l b) : c ∈ l :=
  (squeezeDashes_sublist l b).subset h

/-- Trimming trailing dashes only drops characters. -/
theorem mem_trimTrailingDashes {c : Char} {l : List Char}
    (h : c ∈ trimTrailingDashes l) : c ∈ l := by
  unfold trimTrailingDashes at h
  rw [List.mem_reverse] at h
  exact List.mem_reverse.mp ((List.dropWhile_sublist _).subset h)

/-- After a dash was just emitted, `squeezeDashes` never emits a dash
first. -/
theorem squeezeDashes_true_head :
    ∀ (l : List Char), (squeezeDashes l true).head? ≠ some '-' := by
  intro l
  induction l with
  | nil => simp [squeezeDashes]
  | cons a rest ih =>
    rw [squeezeDashes]
    by_cases h1 : a = '-'
    · rw [if_pos h1, if_pos rfl]
      exact ih
    · rw [if_neg h1]
      simp [h1]

/-- Extending a dash-free-adjacent list with a compatible head. -/
theorem noDoubledDash_cons {a : Char} {l : List Char}
    (h1 : noDoubledDash l = true) (h2 : l.head? = some '-' → ¬ a = '-') :
    noDoubledDash (a :: l) = true := by
  cases l with
  | nil => rfl
  | cons b rest =>
    rw [noDoubledDash]
    simp only [Bool.and_eq_true, Bool.not_eq_true']
    refine ⟨?_, h1⟩
    by_cases hb : b = '-'
    · have := h2 (by simp [hb])
      simp [this]
    · simp [hb]

/-- The squeezing loop of `generateIDWithURL` leaves no doubled dash. -/
theorem noDoubledDash_squeezeDashes :
    ∀ (l : List Char) (b : Bool), noDoubledDash (squeezeDashes l b) = true := by
  intro l
  induction l with
  | nil => intro b; rfl
  | cons a rest ih =>
    intro b
    rw [squeezeDashes]
    split_ifs with h1 h2
    · exact ih true
    · exact noDoubledDash_cons (ih true)
        (fun hh => absurd hh (squeezeDashes_true_head rest))
    · exact noDoubledDash_cons (ih false) (fun _ => h1)

/-- `noDoubledDash` restricts to the left part of an append. -/
theorem noDoubledDash_append_left :
    ∀ (l t : List Char), noDoubledDash (l ++ t) = true →
      noDoubledDash l = true := by
  intro l
  induction l with
  | nil => intro t _; rfl
  | cons a r ih =>
    intro t h
    cases r with
    | nil => rfl
    | cons b s =>
      rw [List.cons_append, List.cons_append, noDoubledDash] at h
      rw [noDoubledDash]
      simp only [Bool.and_eq_true] at h ⊢
      exact ⟨h.1, ih t h.2⟩

/-- `trimTrailingDashes l` is an initial segment of `l`, the remainder
being all dashes. -/
theorem trimTrailingDashes_decomp (l : List Char) :
    ∃ t, l = trimTrailingDashes l ++ t ∧ ∀ c ∈ t, c = '-' := by
  refine ⟨(l.reverse.takeWhile (fun c => c = '-')).reverse, ?_, ?_⟩
  · unfold trimTrailingDashes
    rw [← List.reverse_append, List.takeWhile_append_dropWhile,
      List.reverse_reverse]
  · intro c hc
    rw [List.mem_reverse] at hc
    have := List.mem_takeWhile_imp hc
    simpa using this

/-- The head of what `dropWhile` leaves does not satisfy the predicate. -/
theorem head?_dropWhile_false (p : Char → Bool) :
    ∀ (l : List Char) {c : Char}, (l.dropWhile p).head? = some c →
      p c = false := by
  intro l
  induction l with
  | nil => intro c h; simp [List.dropWhile] at h
  | cons a rest ih =>
    intro c h
    rw [List.dropWhile_cons] at h
    split_ifs at h with ha
    · exact ih h
    · rw [List.head?_cons, Option.some.injEq] at h
      rw [← h]
      exact Bool.not_eq_true _ ▸ Bool.of_not_eq_true ha

/-- `trimTrailingDashes` never ends in a dash. -/
theorem getLast?_trimTrailingDashes (l : List Char) :
    (trimTrailingDashes l).getLast? ≠ some '-' := by
  unfold trimTrailingDashes
  rw [List.getLast?_reverse]
  intro h
  have := head?_dropWhile_false (fun c => c = '-') _ h
  simp at this

/-- C4 counterexample: with the same name two distinct URLs can collide
("b.c" and "b c" both sanitize to "b-c"), and a generated ID can start
with a dash (empty name). -/
theorem generateIDWithURL_claim_false :
    generateIDWithURL "a" "b.c" = generateIDWithURL "a" "b c" ∧
    ("b.c" : String) ≠ "b c" ∧
    (generateIDWithURL "" "x").data.head? = some '-' := by decide

/-- C4 (amended): ID generation is a pure function of (name, url), and
every generated ID consists only of characters in [A-Za-z0-9-], with no
doubled dash and no trailing dash.  (A leading dash is possible, and
distinct URLs under the same name may collide.) -/
theorem generateIDWithURL_shape (name url : String) :
    (∀ c ∈ (generateIDWithURL name url).data, goIDKeep c = true ∨ c = '-') ∧
    noDoubledDash (generateIDWithURL name url).data = true ∧
    (generateIDWithURL name url).data.getLast? ≠ some '-' := by
  refine ⟨?_, ?_, ?_⟩
  · intro c hc
    exact mem_sanitizeRune (mem_squeezeDashes (mem_trimTrailingDashes hc))
  · obtain ⟨t, ht, -⟩ := trimTrailingDashes_decomp
      (squeezeDashes (sanitizeRune (name.data ++ '-' :: url.data)) false)
    exact noDoubledDash_append_left _ t
      (ht ▸ noDoubledDash_squeezeDashes _ false)
  · exact getLast?_trimTrailingDashes _

/-- C5: one cleanup run keeps exactly the records whose timestamp is not
strictly before `now` minus the retention period, so boundary records
are retained; the retention period is the fixed constant 3 days. -/
theorem cleanup_retention (now : Int) (history : List HealthCheckRecord)
    (r : HealthCheckRecord) :
    (r ∈ CleanupOldData now history ↔
       r ∈ history ∧ ¬ r.timestamp < now - DataRetentionDays * nanosPerDay) ∧
    (r ∈ history → ¬ r.timestamp < now - DataRetentionDays * nanosPerDay →
       r ∈ CleanupOldData now history) ∧
    DataRetentionDays = 3 := by
  refine ⟨?_, ?_, rfl⟩
  · simp [CleanupOldData, List.mem_filter]
  · intro h1 h2
    simp [CleanupOldData, List.mem_filter, h1, h2]

/-- Witness for C5: with `now` three days after instant 0 the cutoff is
0; the record exactly at the boundary is retained and the record one
nanosecond older is deleted. -/
theorem cleanup_retention_witness :
    recAt 0 ∈
      CleanupOldData (DataRetentionDays * nanosPerDay)
        [recAt (-1), recAt 0] ∧
    recAt (-1) ∉
      CleanupOldData (DataRetentionDays * nanosPerDay)
        [recAt (-1), recAt 0] :=
  ⟨(cleanup_retention (DataRetentionDays * nanosPerDay)
      [recAt (-1), recAt 0] (recAt 0)).2.1 (by decide) (by decide),
   by decide⟩

/-- C8: the add operation rejects an empty name or URL with a
validation error and a duplicate name or duplicate URL with Conflict,
in both cases leaving the endpoints store unchanged. -/
theorem handleAddEndpoint_rejects (now : Int) (db : List StoredEndpoint)
    (req : EndpointRequest) :
    ((req.name = "" ∨ req.url = "") →
       handleAddEndpoint now db req = (db, some AddError.validationError)) ∧
    (¬ req.name = "" → ¬ req.url = "" →
     (∃ ep ∈ db, ep.name = req.name ∨ ep.url = req.url) →
       handleAddEndpoint now db req = (db, some AddError.conflict)) := by
  constructor
  · intro h
    unfold handleAddEndpoint
    rw [if_pos h]
  · intro hn hu hex
    have hc : db.any (fun ep => ep.name == req.name || ep.url == req.url)
        = true := by
      obtain ⟨ep, hep, hor⟩ := hex
      refine List.any_eq_true.mpr ⟨ep, hep, ?_⟩
      rcases hor with h | h <;> simp [h]
    unfold handleAddEndpoint
    rw [if_neg (by tauto), if_pos hc]

/-- Witness for C8, the spec scenario: adding name "API" url "https://x"
to an empty store succeeds, and then adding name "API" url "https://y"
is rejected with Conflict, leaving the store as it was. -/
theorem handleAddEndpoint_rejects_witness :
    (handleAddEndpoint 100 [] apiReqX).2 = none ∧
    handleAddEndpoint 100 (handleAddEndpoint 100 [] apiReqX).1 apiReqY =
      ((handleAddEndpoint 100 [] apiReqX).1, some AddError.conflict) :=
  ⟨by decide,
   (handleAddEndpoint_rejects 100 (handleAddEndpoint 100 [] apiReqX).1
      apiReqY).2 (by decide) (by decide) (by decide)⟩

/-- C9: removing an ID that matches no stored endpoint and no runtime
state reports success and leaves both the endpoints store and the
state map unchanged. -/
theorem remove_absent_id_noop (db : List StoredEndpoint)
    (states : List (String × EndpointState)) (id : String)
    (h1 : ∀ ep ∈ db, ¬ ep.id = id) (h2 : ∀ p ∈ states, ¬ p.1 = id) :
    RemoveEndpoint db states id = (db, states, true) := by
  simp only [RemoveEndpoint, DeleteEndpoint, Prod.mk.injEq]
  refine ⟨List.filter_eq_self.mpr ?_, List.filter_eq_self.mpr ?_, trivial⟩
  · intro ep hep
    simpa using h1 ep hep
  · intro p hp
    simpa using h2 p hp

/-- Witness for C9: removing the unknown ID "ghost" from a store and a
state map that do not contain it changes nothing and succeeds. -/
theorem remove_absent_id_noop_witness :
    RemoveEndpoint [sampleStored] [("API-https-x", sampleState)] "ghost" =
      ([sampleStored], [("API-https-x", sampleState)], true) :=
  remove_absent_id_noop [sampleStored] [("API-https-x", sampleState)]
    "ghost" (by decide) (by decide)

/-! ### Bytewise key order: basic lemmas -/

/-- `lexLtB` on singletons is the character order. -/
theorem lexLtB_single (u v : Char) : lexLtB [u] [v] = true ↔ u < v := by
  simp only [lexLtB]
  split_ifs with h1 h2 <;> simp_all

/-- Nothing that extends `p` is strictly below `p`. -/
theorem lexLtB_append_self_false : ∀ (p t : List Char),
    lexLtB (p ++ t) p = false := by
  intro p
  induction p with
  | nil =>
    intro t
    cases t <;> rfl
  | cons a ps ih =>
    intro t
    simp only [List.cons_append, lexLtB, lt_irrefl, if_false,
      List.append_eq, ih t]

/-- A shared first block cancels on both sides of `lexLtB`. -/
theorem lexLtB_append_same : ∀ (p x y : List Char),
    lexLtB (p ++ x) (p ++ y) = lexLtB x y := by
  intro p
  induction p with
  | nil => intro x y; rfl
  | cons a ps ih =>
    intro x y
    simp only [List.cons_append, lexLtB, lt_irrefl, if_false,
      List.append_eq, ih x y]

/-- `lexLtB` is transitive. -/
theorem lexLtB_trans : ∀ (a b c : List Char),
    lexLtB a b = true → lexLtB b c = true → lexLtB a c = true := by
  intro a
  induction a with
  | nil =>
    intro b c hab hbc
    cases b with
    | nil => simp [lexLtB] at hab
    | cons y bs =>
      cases c with
      | nil => simp [lexLtB] at hbc
      | cons z cs => rfl
  | cons x as ih =>
    intro b c hab hbc
    cases b with
    | nil => simp [lexLtB] at hab
    | cons y bs =>
      cases c with
      | nil => simp [lexLtB] at hbc
      | cons z cs =>
        simp only [lexLtB] at hab hbc ⊢
        rcases lt_trichotomy x y with hxy | hxy | hxy
        · rcases lt_trichotomy y z with hyz | hyz | hyz
          · rw [if_pos (lt_trans hxy hyz)]
          · rw [← hyz, if_pos hxy]
          · rw [if_neg (lt_asymm hyz), if_pos hyz] at hbc
            exact absurd hbc (by simp)
        · subst hxy
          rw [if_neg (lt_irrefl x), if_neg (lt_irrefl x)] at hab
          rcases lt_trichotomy x z with hxz | hxz | hxz
          · rw [if_pos hxz]
          · subst hxz
            rw [if_neg (lt_irrefl x), if_neg (lt_irrefl x)] at hbc ⊢
            exact ih bs cs hab hbc
          · rw [if_neg (lt_asymm hxz), if_pos hxz] at hbc
            exact absurd hbc (by simp)
        · rw [if_neg (lt_asymm hxy), if_pos hxy] at hab
          exact absurd hab (by simp)

/-- `isPrefixOf` on char lists means an append decomposition exists. -/
theorem isPrefixOf_exists : ∀ (p l : List Char),
    p.isPrefixOf l = true ↔ ∃ t, l = p ++ t := by
  intro p
  induction p with
  | nil =>
    intro l
    simp [List.isPrefixOf]
  | cons a ps ih =>
    intro l
    cases l with
    | nil => simp [List.isPrefixOf]
    | cons b ls =>
      simp only [List.isPrefixOf, Bool.and_eq_true, beq_iff_eq, ih,
        List.cons_append, List.cons.injEq]
      constructor
      · rintro ⟨rfl, t, rfl⟩
        exact ⟨t, rfl, rfl⟩
      · rintro ⟨t, rfl, rfl⟩
        exact ⟨rfl, t, rfl⟩

/-- A key lying between `p` and an extension of `p` also extends `p`. -/
theorem between_extends : ∀ (p k k2 : List Char),
    lexLtB k p = false → lexLtB k k2 = true → (∃ t, k2 = p ++ t) →
    ∃ t, k = p ++ t := by
  intro p
  induction p with
  | nil => intro k k2 _ _ _; exact ⟨k, rfl⟩
  | cons a ps ih =>
    rintro k k2 hkp hkk ⟨t, rfl⟩
    cases k with
    | nil => simp [lexLtB] at hkp
    | cons c ks =>
      rw [List.cons_append] at hkk
      simp only [lexLtB] at hkp hkk
      rcases lt_trichotomy c a with hca | hca | hca
      · rw [if_pos hca] at hkp
        exact absurd hkp (by simp)
      · subst hca
        rw [if_neg (lt_irrefl c), if_neg (lt_irrefl c)] at hkp hkk
        obtain ⟨u, hu⟩ := ih ks (ps ++ t) hkp hkk ⟨t, rfl⟩
        exact ⟨u, by rw [List.cons_append, hu]⟩
      · rw [if_neg (lt_asymm hca), if_pos hca] at hkk
        exact absurd hkk (by simp)

/-! ### Decimal rendering: order and length lemmas -/

/-- Any fuel at least `n + 1` computes the same digits. -/
theorem toDecGo_eq : ∀ (fuel n : Nat), n < fuel →
    toDecGo fuel n = toDecGo (n + 1) n := by
  intro fuel
  induction fuel using Nat.strong_induction_on with
  | _ fuel ih =>
    intro n hn
    cases fuel with
    | zero => omega
    | succ f =>
      by_cases h10 : n < 10
      · simp [toDecGo, h10]
      · have ha : n / 10 < n := Nat.div_lt_self (by omega) (by omega)
        simp only [toDecGo, if_neg h10]
        congr 1
        calc toDecGo f (n / 10)
            = toDecGo (n / 10 + 1) (n / 10) := ih f (by omega) (n / 10) (by omega)
          _ = toDecGo n (n / 10) := (ih n (by omega) (n / 10) ha).symm

/-- The fuel-free unfolding of `toDec`: one digit below 10, otherwise
the digits of `n / 10` followed by the digit of `n % 10`. -/
theorem toDec_unfold (n : Nat) :
    toDec n = if n < 10 then [digitChar10 n]
      else toDec (n / 10) ++ [digitChar10 (n % 10)] := by
  by_cases h10 : n < 10
  · simp [toDec, toDecGo, h10]
  · have ha : n / 10 < n := Nat.div_lt_self (by omega) (by omega)
    simp only [toDec, toDecGo, if_neg h10]
    congr 1
    exact toDecGo_eq n (n / 10) ha

/-- A decimal rendering has at least one digit. -/
theorem toDec_length_pos (n : Nat) : 1 ≤ (toDec n).length := by
  rw [toDec_unfold]
  split_ifs <;> simp

/-- Digit characters order like their digits. -/
theorem digitChar10_lt_iff {a b : Nat} (ha : a < 10) (hb : b < 10) :
    digitChar10 a < digitChar10 b ↔ a < b := by
  interval_cases a <;> interval_cases b <;> decide

/-- Digit characters are distinct for distinct digits. -/
theorem digitChar10_inj {a b : Nat} (ha : a < 10) (hb : b < 10)
    (h : digitChar10 a = digitChar10 b) : a = b := by
  interval_cases a <;> interval_cases b <;> first | rfl | exact absurd h (by decide)

/-- Decimal renderings of distinct numbers differ. -/
theorem toDec_inj : ∀ (a b : Nat), toDec a = toDec b → a = b := by
  intro a
  induction a using Nat.strong_induction_on with
  | _ a ih =>
    intro b h
    rw [toDec_unfold a, toDec_unfold b] at h
    by_cases ha : a < 10 <;> by_cases hb : b < 10
    · rw [if_pos ha, if_pos hb] at h
      exact digitChar10_inj ha hb (by simpa using h)
    · rw [if_pos ha, if_neg hb] at h
      have := congrArg List.length h
      simp only [List.length_cons, List.length_nil, List.length_append] at this
      have := toDec_length_pos (b / 10)
      omega
    · rw [if_neg ha, if_pos hb] at h
      have := congrArg List.length h
      simp only [List.length_cons, List.length_nil, List.length_append] at this
      have := toDec_length_pos (a / 10)
      omega
    · rw [if_neg ha, if_neg hb] at h
      obtain ⟨h1, h2⟩ := List.append_inj' h (by rfl)
      have hda : a / 10 = b / 10 :=
        ih (a / 10) (Nat.div_lt_self (by omega) (by omega)) (b / 10) h1
      have hdm : a % 10 = b % 10 :=
        digitChar10_inj (Nat.mod_lt a (by omega)) (Nat.mod_lt b (by omega))
          (by injection h2)
      omega

/-- Comparing equal-length lists extended by one character on the
right. -/
theorem lexLtB_append_single : ∀ (x y : List Char) (u v : Char),
    x.length = y.length →
    (lexLtB (x ++ [u]) (y ++ [v]) = true ↔
      (lexLtB x y = true ∨ (x = y ∧ u < v))) := by
  intro x
  induction x with
  | nil =>
    intro y u v hl
    cases y with
    | nil => simp [lexLtB_single, lexLtB]
    | cons b ys => simp at hl
  | cons a xs ih =>
    intro y u v hl
    cases y with
    | nil => simp at hl
    | cons b ys =>
      simp only [List.length_cons, Nat.add_right_cancel_iff] at hl
      simp only [List.cons_append, lexLtB, List.cons.injEq]
      rcases lt_trichotomy a b with hab | hab | hab
      · rw [if_pos hab, if_pos hab]
        simp
      · subst hab
        rw [if_neg (lt_irrefl a), if_neg (lt_irrefl a), if_neg (lt_irrefl a),
          if_neg (lt_irrefl a)]
        simp only [List.append_eq]
        rw [ih ys u v hl]
        simp
      · rw [if_neg (lt_asymm hab), if_pos hab, if_neg (lt_asymm hab),
          if_pos hab]
        simp [ne_of_gt hab]

/-- For equal digit counts, bytewise order of decimal renderings is the
numeric order. -/
theorem toDec_lt_iff : ∀ (a b : Nat),
    (toDec a).length = (toDec b).length →
    (lexLtB (toDec a) (toDec b) = true ↔ a < b) := by
  intro a
  induction a using Nat.strong_induction_on with
  | _ a ih =>
    intro b hlen
    by_cases ha : a < 10 <;> by_cases hb : b < 10
    · rw [toDec_unfold a, toDec_unfold b, if_pos ha, if_pos hb,
        lexLtB_single]
      exact digitChar10_lt_iff ha hb
    · exfalso
      rw [toDec_unfold a, toDec_unfold b, if_pos ha, if_neg hb] at hlen
      simp only [List.length_cons, List.length_nil, List.length_append]
        at hlen
      have := toDec_length_pos (b / 10)
      omega
    · exfalso
      rw [toDec_unfold a, toDec_unfold b, if_neg ha, if_pos hb] at hlen
      simp only [List.length_cons, List.length_nil, List.length_append]
        at hlen
      have := toDec_length_pos (a / 10)
      omega
    · have hlen2 : (toDec (a / 10)).length = (toDec (b / 10)).length := by
        rw [toDec_unfold a, toDec_unfold b, if_neg ha, if_neg hb] at hlen
        simp only [List.length_append, List.length_cons, List.length_nil]
          at hlen
        omega
      have hdiva : a / 10 < a := Nat.div_lt_self (by omega) (by omega)
      rw [toDec_unfold a, toDec_unfold b, if_neg ha, if_neg hb,
        lexLtB_append_single _ _ _ _ hlen2]
      constructor
      · rintro (h | ⟨he, hd⟩)
        · have : a / 10 < b / 10 := (ih (a / 10) hdiva (b / 10) hlen2).mp h
          omega
        · have h1 : a / 10 = b / 10 := toDec_inj _ _ he
          have h2 : a % 10 < b % 10 :=
            (digitChar10_lt_iff (Nat.mod_lt a (by omega))
              (Nat.mod_lt b (by omega))).mp hd
          omega
      · intro hab
        rcases Nat.lt_or_ge (a / 10) (b / 10) with h | h
        · exact Or.inl ((ih (a / 10) hdiva (b / 10) hlen2).mpr h)
        · have h1 : a / 10 = b / 10 := by omega
          have h2 : a % 10 < b % 10 := by omega
          exact Or.inr ⟨by rw [h1],
            (digitChar10_lt_iff (Nat.mod_lt a (by omega))
              (Nat.mod_lt b (by omega))).mpr h2⟩

/-! ### The cursor scan is the prefix filter on a sorted bucket -/

/-- What `dropWhile` leaves starts with an element failing the
predicate. -/
theorem head?_dropWhile_eq_false {α : Type} (p : α → Bool) :
    ∀ (l : List α) {c : α}, (l.dropWhile p).head? = some c → p c = false := by
  intro l
  induction l with
  | nil => intro c h; simp [List.dropWhile] at h
  | cons a rest ih =>
    intro c h
    rw [List.dropWhile_cons] at h
    split_ifs at h with ha
    · exact ih h
    · rw [List.head?_cons, Option.some.injEq] at h
      rw [← h]
      simpa using ha

/-- Dropping elements that all fail `q` does not change the
`q`-filter. -/
theorem filter_dropWhile_eq {α : Type} (pred q : α → Bool)
    (h : ∀ x, pred x = true → q x = false) :
    ∀ l : List α, (l.dropWhile pred).filter q = l.filter q := by
  intro l
  induction l with
  | nil => rfl
  | cons a t ih =>
    rw [List.dropWhile_cons]
    by_cases hp : pred a = true
    · rw [if_pos hp, ih, List.filter_cons, if_neg (by simp [h a hp])]
    · rw [if_neg (by simpa using hp)]

/-- When failing `q` propagates rightwards, `takeWhile` and `filter`
agree. -/
theorem takeWhile_eq_filter_of_pairwise {α : Type} (q : α → Bool) :
    ∀ l : List α, List.Pairwise (fun x y => q x = false → q y = false) l →
      l.takeWhile q = l.filter q := by
  intro l
  induction l with
  | nil => intro _; rfl
  | cons a t ih =>
    intro hp
    rw [List.pairwise_cons] at hp
    rw [List.takeWhile_cons, List.filter_cons]
    by_cases hq : q a = true
    · rw [if_pos hq, if_pos hq, ih hp.2]
    · have hqf : q a = false := by simpa using hq
      rw [if_neg (by simp [hqf]), if_neg (by simp [hqf])]
      exact (List.filter_eq_nil_iff.mpr
        (fun x hx => by simp [hp.1 x hx hqf])).symm

/-- On a key-sorted list, everything the seek left behind has key not
below `p`. -/
theorem dropWhile_lexGe {α : Type} (keyOf : α → List Char) (p : List Char)
    (l : List α)
    (hsort : List.Pairwise (fun x y => lexLtB (keyOf x) (keyOf y) = true) l) :
    ∀ x ∈ l.dropWhile (fun r => lexLtB (keyOf r) p),
      lexLtB (keyOf x) p = false := by
  intro x hx
  cases hd : l.dropWhile (fun r => lexLtB (keyOf r) p) with
  | nil => rw [hd] at hx; simp at hx
  | cons d0 rest =>
    have h0 : lexLtB (keyOf d0) p = false :=
      head?_dropWhile_eq_false _ l (by rw [hd]; rfl)
    rw [hd] at hx
    rcases List.mem_cons.mp hx with rfl | hr
    · exact h0
    · have hp : List.Pairwise
          (fun x y => lexLtB (keyOf x) (keyOf y) = true) (d0 :: rest) :=
        hd ▸ (List.Pairwise.sublist (List.dropWhile_sublist _) hsort)
      have hlt : lexLtB (keyOf d0) (keyOf x) = true :=
        (List.pairwise_cons.mp hp).1 x hr
      by_contra hc
      rw [Bool.not_eq_false] at hc
      have := lexLtB_trans _ _ _ hlt hc
      rw [h0] at this
      exact absurd this (by simp)

/-- On a key-sorted list the cursor scan (seek to the first key not
below the prefix, iterate while the prefix matches) collects exactly
the prefix-matching entries. -/
theorem seekScan_eq_filter {α : Type} (keyOf : α → List Char)
    (p : List Char) (l : List α)
    (hsort : List.Pairwise
      (fun x y => lexLtB (keyOf x) (keyOf y) = true) l) :
    ((l.dropWhile (fun r => lexLtB (keyOf r) p)).takeWhile
        (fun r => p.isPrefixOf (keyOf r))) =
      l.filter (fun r => p.isPrefixOf (keyOf r)) := by
  have h1 : ∀ x : α, lexLtB (keyOf x) p = true →
      p.isPrefixOf (keyOf x) = false := by
    intro x hx
    by_contra hq
    rw [Bool.not_eq_false] at hq
    obtain ⟨t, ht⟩ := (isPrefixOf_exists p (keyOf x)).mp hq
    rw [ht, lexLtB_append_self_false] at hx
    exact absurd hx (by simp)
  rw [← filter_dropWhile_eq _ _ h1 l]
  apply takeWhile_eq_filter_of_pairwise
  have hd : List.Pairwise
      (fun x y => lexLtB (keyOf x) (keyOf y) = true)
      (l.dropWhile (fun r => lexLtB (keyOf r) p)) :=
    List.Pairwise.sublist (List.dropWhile_sublist _) hsort
  have hge := dropWhile_lexGe keyOf p l hsort
  refine hd.imp_of_mem ?_
  intro x y hx hy hr
  intro hqx
  by_contra hqy
  rw [Bool.not_eq_false] at hqy
  obtain ⟨t, ht⟩ := (isPrefixOf_exists _ _).mp hqy
  obtain ⟨u, hu⟩ := between_extends p (keyOf x) (keyOf y) (hge x hx) hr ⟨t, ht⟩
  have : p.isPrefixOf (keyOf x) = true := (isPrefixOf_exists _ _).mpr ⟨u, hu⟩
  rw [this] at hqx
  exact absurd hqx (by simp)

/-! ### Keys, endpoint IDs and the history query -/

/-- A history key splits as prefix block plus decimal timestamp. -/
theorem recKey_decomp (r : HealthCheckRecord) :
    recKey r = (r.endpointID.data ++ [':']) ++ goIntDec r.timestamp := by
  simp [recKey, histKey]

/-- Around the first colon, colon-free blocks are determined. -/
theorem colon_sep_inj : ∀ (a b u v : List Char),
    ':' ∉ a → ':' ∉ b → a ++ ':' :: u = b ++ ':' :: v → a = b := by
  intro a
  induction a with
  | nil =>
    intro b u v _ hb h
    cases b with
    | nil => rfl
    | cons c bs =>
      rw [List.nil_append, List.cons_append, List.cons.injEq] at h
      exact absurd (h.1 ▸ List.mem_cons_self c bs) hb
  | cons c as ih =>
    intro b u v ha hb h
    cases b with
    | nil =>
      rw [List.nil_append, List.cons_append, List.cons.injEq] at h
      exact absurd (h.1 ▸ List.mem_cons_self c as) ha
    | cons d bs =>
      rw [List.cons_append, List.cons_append, List.cons.injEq] at h
      rw [h.1, ih bs u v (fun hm => ha (List.mem_cons_of_mem c hm))
        (fun hm => hb (List.mem_cons_of_mem d hm)) h.2]

/-- For colon-free endpoint IDs, the key prefix test identifies the
record's endpoint. -/
theorem isPrefixOf_recKey_iff (eid : String) (r : HealthCheckRecord)
    (he : ':' ∉ eid.data) (hr : ':' ∉ r.endpointID.data) :
    (eid.data ++ [':']).isPrefixOf (recKey r) = true ↔
      r.endpointID = eid := by
  rw [isPrefixOf_exists]
  constructor
  · rintro ⟨t, ht⟩
    rw [recKey, histKey] at ht
    rw [show (eid.data ++ [':']) ++ t = eid.data ++ ':' :: t by simp] at ht
    have hdata := colon_sep_inj _ _ _ _ hr he ht
    cases r0 : r.endpointID with
    | mk l1 =>
      cases e0 : eid with
      | mk l2 =>
        rw [r0, e0] at hdata
        exact congrArg String.mk (by simpa using hdata)
  · rintro rfl
    exact ⟨goIntDec r.timestamp, by simp [recKey, histKey]⟩

/-- Nonnegative instants render without a sign. -/
theorem goIntDec_nonneg {i : Int} (h : 0 ≤ i) :
    goIntDec i = toDec i.toNat := by
  rw [goIntDec, if_neg (by omega)]

/-- C6 counterexample: the bolt cursor orders keys bytewise, and the
decimal timestamps 10 and 5 compare as strings "10" < "5"; on the
legitimately sorted bucket holding just those two records the query
returns the older record first, not most-recent-first. -/
theorem GetHealthHistory_claim_false :
    SortedBucket [recB 10, recB 5] ∧
    GetHealthHistory [recB 10, recB 5] "e" 0 = [recB 5, recB 10] ∧
    (recB 5).timestamp < (recB 10).timestamp := by
  refine ⟨?_, by decide, by decide⟩
  refine List.Pairwise.cons ?_ (List.pairwise_singleton _ _)
  intro s hs
  rw [List.mem_singleton] at hs
  subst hs
  decide

/-- C6 (amended): on a key-sorted history bucket whose endpoint IDs are
colon-free and whose timestamps are nonnegative with equally long
decimal renderings (true of every `UnixNano` instant from 2001-09-09
through 2262), the query returns only the requested endpoint's records;
with `limit ≤ 0` it returns exactly that endpoint's records, with
`limit > 0` at most `limit` of them; and the result is strictly
most-recent-first. -/
theorem GetHealthHistory_ordered (bucket : List HealthCheckRecord)
    (eid : String) (limit : Int)
    (hsort : SortedBucket bucket)
    (he : ':' ∉ eid.data)
    (hid : ∀ r ∈ bucket, ':' ∉ r.endpointID.data)
    (hts : ∀ r ∈ bucket, 0 ≤ r.timestamp)
    (hlen : ∀ r ∈ bucket, ∀ s ∈ bucket,
      (toDec r.timestamp.toNat).length = (toDec s.timestamp.toNat).length) :
    (∀ r ∈ GetHealthHistory bucket eid limit, r.endpointID = eid) ∧
    (limit ≤ 0 → ∀ r, r ∈ GetHealthHistory bucket eid limit ↔
        r ∈ bucket ∧ r.endpointID = eid) ∧
    (0 < limit → (GetHealthHistory bucket eid limit).length ≤ limit.toNat) ∧
    List.Pairwise (fun r s => s.timestamp < r.timestamp)
      (GetHealthHistory bucket eid limit) := by
  have hscan := seekScan_eq_filter recKey (eid.data ++ [':']) bucket hsort
  have hG : GetHealthHistory bucket eid limit =
      if 0 < limit then
        ((bucket.filter
          (fun r => (eid.data ++ [':']).isPrefixOf (recKey r))).reverse).take
          limit.toNat
      else (bucket.filter
        (fun r => (eid.data ++ [':']).isPrefixOf (recKey r))).reverse := by
    unfold GetHealthHistory
    dsimp only
    rw [hscan]
  have hmemf : ∀ r, r ∈ bucket.filter
      (fun r => (eid.data ++ [':']).isPrefixOf (recKey r)) ↔
      r ∈ bucket ∧ r.endpointID = eid := by
    intro r
    rw [List.mem_filter]
    constructor
    · rintro ⟨hb, hq⟩
      exact ⟨hb, (isPrefixOf_recKey_iff eid r he (hid r hb)).mp hq⟩
    · rintro ⟨hb, hq⟩
      exact ⟨hb, (isPrefixOf_recKey_iff eid r he (hid r hb)).mpr hq⟩
  have hpair : List.Pairwise (fun r s => s.timestamp < r.timestamp)
      ((bucket.filter
        (fun r => (eid.data ++ [':']).isPrefixOf (recKey r))).reverse) := by
    rw [List.pairwise_reverse]
    have hpf : List.Pairwise
        (fun r s => lexLtB (recKey r) (recKey s) = true)
        (bucket.filter
          (fun r => (eid.data ++ [':']).isPrefixOf (recKey r))) :=
      List.Pairwise.sublist (List.filter_sublist _) hsort
    refine hpf.imp_of_mem ?_
    intro x y hx hy hk
    obtain ⟨hxb, hxe⟩ := (hmemf x).mp hx
    obtain ⟨hyb, hye⟩ := (hmemf y).mp hy
    rw [recKey_decomp x, recKey_decomp y, hxe, hye, lexLtB_append_same] at hk
    rw [goIntDec_nonneg (hts x hxb), goIntDec_nonneg (hts y hyb)] at hk
    have hnat := (toDec_lt_iff _ _ (hlen x hxb y hyb)).mp hk
    have h0x := hts x hxb
    have h0y := hts y hyb
    omega
  refine ⟨?_, ?_, ?_, ?_⟩
  · intro r hr
    rw [hG] at hr
    have hr2 : r ∈ (bucket.filter
        (fun r => (eid.data ++ [':']).isPrefixOf (recKey r))).reverse := by
      split_ifs at hr with hl
      · exact List.take_subset _ _ hr
      · exact hr
    rw [List.mem_reverse] at hr2
    exact ((hmemf r).mp hr2).2
  · intro hl r
    rw [hG, if_neg (by omega), List.mem_reverse]
    exact hmemf r
  · intro hl
    rw [hG, if_pos hl]
    exact List.length_take_le _ _
  · rw [hG]
    split_ifs with hl
    · exact List.Pairwise.sublist (List.take_sublist _ _) hpair
    · exact hpair

/-- Witness for the amended C6: a two-record bucket for endpoint "e"
with equally long timestamps 100 and 105; the older record is indeed
returned (unbounded query), its endpoint is "e". -/
theorem GetHealthHistory_ordered_witness :
    recB 100 ∈ GetHealthHistory [recB 100, recB 105] "e" 0 ∧
    (recB 100).endpointID = "e" :=
  ⟨((GetHealthHistory_ordered [recB 100, recB 105] "e" 0
      (by refine List.Pairwise.cons ?_ (List.pairwise_singleton _ _)
          intro s hs
          rw [List.mem_singleton] at hs
          subst hs
          decide)
      (by decide) (by decide) (by decide) (by decide)).2.1
      (by decide) (recB 100)).mpr ⟨by decide, rfl⟩, rfl⟩

end Cronzee
